import Mathlib

/-!
Verification of the computational-geometry core of planreview
(src/planreview/esri.py): ring buffering, point-in-ring ray casting,
line intersection, segment domain test, envelope and centroid.

The Python code computes with IEEE-754 doubles via numpy, where division
by zero yields signed infinities, 0/0 yields NaN, and NaN is unordered
and unequal to everything including itself.  We idealize a double as an
element of a linear ordered field extended with two infinities and a
NaN, and translate each numpy operation to the corresponding exact
operation on that type.  Rounding error is the only aspect abstracted
away; all special-value behaviour is modelled faithfully.  Concrete
claims are stated at K = ℝ, the idealized value set of the doubles.
-/

namespace PlanReview

/-- An idealized IEEE double over a linear ordered field: a finite value,
positive or negative infinity, or NaN. -/
inductive F (K : Type) where
  | val (x : K)
  | pinf
  | ninf
  | nan
deriving DecidableEq

namespace F

variable {K : Type} [LinearOrderedField K]

/-- Negation. -/
def fneg : F K → F K
  | val x => val (-x)
  | pinf => ninf
  | ninf => pinf
  | nan => nan

/-- Addition, with `inf + (-inf) = NaN` and NaN absorbing. -/
def fadd : F K → F K → F K
  | nan, _ => nan
  | _, nan => nan
  | val a, val b => val (a + b)
  | val _, pinf => pinf
  | val _, ninf => ninf
  | pinf, val _ => pinf
  | ninf, val _ => ninf
  | pinf, pinf => pinf
  | ninf, ninf => ninf
  | pinf, ninf => nan
  | ninf, pinf => nan

/-- Subtraction. -/
def fsub (a b : F K) : F K := fadd a (fneg b)

/-- Multiplication, with `inf * 0 = NaN` and NaN absorbing. -/
def fmul : F K → F K → F K
  | nan, _ => nan
  | _, nan => nan
  | val a, val b => val (a * b)
  | val a, pinf => if 0 < a then pinf else if a < 0 then ninf else nan
  | val a, ninf => if 0 < a then ninf else if a < 0 then pinf else nan
  | pinf, val b => if 0 < b then pinf else if b < 0 then ninf else nan
  | ninf, val b => if 0 < b then ninf else if b < 0 then pinf else nan
  | pinf, pinf => pinf
  | ninf, ninf => pinf
  | pinf, ninf => ninf
  | ninf, pinf => ninf

/-- Division: `a/0` is a signed infinity for `a ≠ 0` and NaN for `0/0`
(numpy `np.divide` semantics); `a/±inf = 0`; `inf/inf = NaN`. -/
def fdiv : F K → F K → F K
  | nan, _ => nan
  | _, nan => nan
  | val a, val b =>
      if b = 0 then (if 0 < a then pinf else if a < 0 then ninf else nan)
      else val (a / b)
  | val _, pinf => val 0
  | val _, ninf => val 0
  | pinf, val b => if b < 0 then ninf else pinf
  | ninf, val b => if b < 0 then pinf else ninf
  | pinf, pinf => nan
  | pinf, ninf => nan
  | ninf, pinf => nan
  | ninf, ninf => nan

/-- IEEE `<`: NaN is unordered. -/
def flt : F K → F K → Bool
  | nan, _ => false
  | _, nan => false
  | val a, val b => decide (a < b)
  | val _, pinf => true
  | val _, ninf => false
  | pinf, val _ => false
  | ninf, val _ => true
  | pinf, pinf => false
  | ninf, ninf => false
  | pinf, ninf => false
  | ninf, pinf => true

/-- IEEE `>`. -/
def fgt (a b : F K) : Bool := flt b a

/-- IEEE `==`: NaN is not equal to anything, including itself. -/
def ieeeEq : F K → F K → Bool
  | nan, _ => false
  | _, nan => false
  | val a, val b => decide (a = b)
  | pinf, pinf => true
  | ninf, ninf => true
  | _, _ => false

/-- NaN test (`np.isnan`). -/
def isNan : F K → Bool
  | nan => true
  | _ => false

/-- Python's two-argument `max(a, b)`: keeps `a` unless `b > a`. -/
def pymax (a b : F K) : F K := if fgt b a then b else a

/-- Python's two-argument `min(a, b)`: keeps `a` unless `b < a`. -/
def pymin (a b : F K) : F K := if flt b a then b else a

/-- Translation of `np.isclose(a, b, atol, rtol)`: for finite arguments
`|a - b| <= atol + rtol * |b|`; non-finite arguments are close exactly
when IEEE-equal (same-signed infinities close, NaN close to nothing). -/
def isclose (a b : F K) (atol rtol : K) : Bool :=
  match a, b with
  | val x, val y => decide (|x - y| ≤ atol + rtol * |y|)
  | pinf, pinf => true
  | ninf, ninf => true
  | _, _ => false

end F

open F

/-- A point: a pair of idealized floats, as the two-element coordinate
lists of the source. -/
def Pt (K : Type) := F K × F K

instance {K : Type} [DecidableEq K] : DecidableEq (Pt K) := by
  unfold Pt; infer_instance

variable {K : Type} [LinearOrderedField K]

/-- Python `==` on two-element coordinate lists: componentwise IEEE
equality. -/
def ieeeEqPt (p q : Pt K) : Bool := ieeeEq p.1 q.1 && ieeeEq p.2 q.2

/-- Finite point constructor. -/
def fpt (x y : K) : Pt K := (val x, val y)

/-- Default point for list indexing. -/
def pt0 : Pt K := fpt 0 0

-- ## Line intersection (esri.point_slope, esri.intersection)

/-- Translation of esri.point_slope: slope and y-intercept of the line
through a and b; an infinite intercept (vertical line off the y-axis) is
replaced by NaN, and a vertical line through the y-axis already yields a
NaN intercept via `inf * 0`. -/
def point_slope (a b : Pt K) : F K × F K :=
  let m := fdiv (fsub b.2 a.2) (fsub b.1 a.1)
  let bb := fsub a.2 (fmul m a.1)
  if ieeeEq bb pinf || ieeeEq bb ninf then (m, nan) else (m, bb)

/-- Translation of esri.intersection: intersection point of the two
infinite lines through (a,b) and (c,d); None when the computed slopes
compare IEEE-equal; a NaN intercept (vertical or degenerate line) is
resolved by substituting that line's x into the other equation. -/
def intersection (a b c d : Pt K) : Option (Pt K) :=
  let mb1 := point_slope a b
  let mb2 := point_slope c d
  if ieeeEq mb1.1 mb2.1 then none
  else if isNan mb1.2 then some (a.1, fadd (fmul mb2.1 a.1) mb2.2)
  else if isNan mb2.2 then some (c.1, fadd (fmul mb1.1 c.1) mb1.2)
  else
    let x := fdiv (fsub mb2.2 mb1.2) (fsub mb1.1 mb2.1)
    some (x, fadd (fmul mb1.1 x) mb1.2)

-- ## Segment domain test (esri.in_domain)

/-- Translation of one loop iteration of esri.in_domain: the coordinate
must not exceed the max nor fall below the min of either segment's
corresponding coordinates. -/
def in_domain_coord (c pa pb oa ob : F K) : Bool :=
  !(fgt c (pymax pa pb) || flt c (pymin pa pb)) &&
  !(fgt c (pymax oa ob) || flt c (pymin oa ob))

/-- Translation of esri.in_domain: both coordinates of the candidate
intersection must pass the per-coordinate bounding test against segment
(p1,p2) and segment (o1,o2). -/
def in_domain (i p1 p2 o1 o2 : Pt K) : Bool :=
  in_domain_coord i.1 p1.1 p2.1 o1.1 o2.1 &&
  in_domain_coord i.2 p1.2 p2.2 o1.2 o2.2

-- ## Point-in-ring test (esri.is_outside)

/-- Rotation of a list by one position: the last element moves to the
front.  `(rot1 l)[i] = l[i-1]` with Python's negative-index wrap. -/
def rot1 {α : Type} : List α → List α
  | [] => []
  | x :: xs => (x :: xs).getLast (List.cons_ne_nil x xs) :: (x :: xs).dropLast

/-- Edge list of a ring: the pairs (ring[i-1], ring[i]) traversed by the
is_outside loop. -/
def edgePairs (ring : List (Pt K)) : List (Pt K × Pt K) :=
  (rot1 ring).zip ring

/-- The fixed ray-cast origin [-1.0, -1.0]. -/
def rayOrigin : Pt K := fpt (-1) (-1)

/-- One iteration of the is_outside loop: update the counter pair
(intersections, vertex_intersections) with one edge. -/
def isOutsideStep (point : Pt K) (acc : ℕ × ℕ) (e : Pt K × Pt K) : ℕ × ℕ :=
  match intersection rayOrigin point e.1 e.2 with
  | none => acc
  | some i =>
      if !(in_domain i e.1 e.2 rayOrigin point) then acc
      else if ieeeEqPt i e.1 || ieeeEqPt i e.2 then (acc.1 + 1, acc.2 + 1)
      else (acc.1 + 1, acc.2)

/-- Python float `x % 2 == 0`: Python's float modulo is
`x - 2 * floor (x / 2)`, so the test holds exactly when
`x = 2 * floor (x / 2)`. -/
def pyMod2Zero [FloorRing K] (x : K) : Bool := decide (x = 2 * (⌊x / 2⌋ : ℤ))

/-- Translation of esri.is_outside: count ray/edge line intersections
that pass the domain test, count those landing exactly on an edge
endpoint a second time as vertex intersections, subtract half the vertex
count, and report outside when the result is an even float. -/
def is_outside [FloorRing K] (ring : List (Pt K)) (point : Pt K) : Bool :=
  let nv := (edgePairs ring).foldl (isOutsideStep point) (0, 0)
  pyMod2Zero ((nv.1 : K) - (nv.2 : K) / 2)

-- ## Envelope and centroid (esri.make_envelope, esri.centroid)

/-- The Envelope record of esri. -/
structure Envelope (K : Type) where
  xmin : F K
  ymin : F K
  xmax : F K
  ymax : F K

/-- Translation of esri.make_envelope: componentwise min/max folds over
the ring, seeded at the first vertex as Python's builtin min/max are.
The source raises ValueError on an empty ring; the empty case here
returns a NaN envelope and is excluded by the claims' hypotheses. -/
def make_envelope (ring : List (Pt K)) : Envelope K :=
  match ring with
  | [] => ⟨nan, nan, nan, nan⟩
  | p :: rest =>
      ⟨(rest.map Prod.fst).foldl pymin p.1,
       (rest.map Prod.snd).foldl pymin p.2,
       (rest.map Prod.fst).foldl pymax p.1,
       (rest.map Prod.snd).foldl pymax p.2⟩

/-- Translation of esri.centroid: the componentwise sum over the ring
divided by its length.  The source raises ZeroDivisionError on an empty
ring; the empty case here yields NaN via 0/0. -/
def centroid (ring : List (Pt K)) : Pt K :=
  (fdiv (ring.foldl (fun s p => fadd s p.1) (val 0)) (val (ring.length : K)),
   fdiv (ring.foldl (fun s p => fadd s p.2) (val 0)) (val (ring.length : K)))

-- ## Counting characterization of the is_outside loop

/-- An edge contributes to the intersection count: its line intersection
with the ray exists and passes the segment domain test. -/
def edgeHit (point : Pt K) (e : Pt K × Pt K) : Bool :=
  match intersection rayOrigin point e.1 e.2 with
  | none => false
  | some i => in_domain i e.1 e.2 rayOrigin point

/-- An edge contributes to the vertex-intersection count: it contributes
to the intersection count and the intersection equals an edge endpoint
under IEEE comparison. -/
def edgeVertexHit (point : Pt K) (e : Pt K × Pt K) : Bool :=
  match intersection rayOrigin point e.1 e.2 with
  | none => false
  | some i =>
      in_domain i e.1 e.2 rayOrigin point && (ieeeEqPt i e.1 || ieeeEqPt i e.2)

-- ## Ring buffering (esri.buffer_ring)

/-- numpy arctan on a slope value: maps ±inf to ±π/2 and NaN to NaN. -/
noncomputable def arctanF : F ℝ → F ℝ
  | val x => val (Real.arctan x)
  | pinf => val (Real.pi / 2)
  | ninf => val (-(Real.pi / 2))
  | nan => nan

/-- numpy cos: NaN on non-finite input. -/
noncomputable def cosF : F ℝ → F ℝ
  | val x => val (Real.cos x)
  | _ => nan

/-- numpy sin: NaN on non-finite input. -/
noncomputable def sinF : F ℝ → F ℝ
  | val x => val (Real.sin x)
  | _ => nan

/-- The angle lambda of buffer_ring: arctan((b.y-a.y)/(b.x-a.x)). -/
noncomputable def angle (a b : Pt ℝ) : F ℝ :=
  arctanF (fdiv (fsub b.2 a.2) (fsub b.1 a.1))

/-- The norm_angle lambda of buffer_ring: arctan(-(b.x-a.x)/(b.y-a.y)). -/
noncomputable def norm_angle (a b : Pt ℝ) : F ℝ :=
  arctanF (fdiv (fneg (fsub b.1 a.1)) (fsub b.2 a.2))

/-- The add_vec lambda of buffer_ring: a + mag * (cos theta, sin theta). -/
noncomputable def add_vec (a : Pt ℝ) (theta : F ℝ) (mag : ℝ) : Pt ℝ :=
  (fadd a.1 (fmul (val mag) (cosF theta)), fadd a.2 (fmul (val mag) (sinF theta)))

/-- One iteration of the buffer_ring loop: the offset vertex for ring
vertex b with predecessor a and successor c.  Two single-edge normal
offsets na and nc are each corrected first by the degenerate-direction
test (np.isclose with atol 1e-3 and numpy's default rtol 1e-5, plus the
segment domain test) and then flipped by π when is_outside rejects them,
and are finally combined by vector addition na + (nc - b). -/
noncomputable def offsetVertex (ring : List (Pt ℝ)) (buffer : ℝ) (a b c : Pt ℝ) : Pt ℝ :=
  let norm_ab := norm_angle a b
  let norm_cb := norm_angle c b
  let na0 := add_vec b norm_ab buffer
  let na1 := if isclose norm_ab (angle b c) (1/1000) (1/100000) &&
      in_domain na0 c b b na0 then add_vec b (fadd norm_ab (val Real.pi)) buffer else na0
  let na := if !(is_outside ring na1) then add_vec b (fadd norm_ab (val Real.pi)) buffer
      else na1
  let nc0 := add_vec b norm_cb buffer
  let nc1 := if isclose norm_cb (angle b a) (1/1000) (1/100000) &&
      in_domain nc0 a b b nc0 then add_vec b (fadd norm_cb (val Real.pi)) buffer else nc0
  let nc := if !(is_outside ring nc1) then add_vec b (fadd norm_cb (val Real.pi)) buffer
      else nc1
  (fadd na.1 (fsub nc.1 b.1), fadd na.2 (fsub nc.2 b.2))

/-- The in-place normalization at the top of buffer_ring: when the
ring's first and last points compare IEEE-equal the closing duplicate is
popped off the caller's list. -/
def normRing : List (Pt K) → List (Pt K)
  | [] => []
  | p :: rest =>
      if ieeeEqPt p ((p :: rest).getLast (List.cons_ne_nil p rest))
      then (p :: rest).dropLast else p :: rest

/-- The vertex triples (ring[i-2], ring[i-1], ring[i]) traversed by the
buffer_ring loop, with Python's negative indexing wrapping. -/
def triples (ring : List (Pt K)) : List (Pt K × Pt K × Pt K) :=
  (rot1 (rot1 ring)).zip ((rot1 ring).zip ring)

/-- The closing step at the bottom of buffer_ring: append the first
point when first and last do not compare IEEE-equal. -/
def closeRing : List (Pt K) → List (Pt K)
  | [] => []
  | p :: rest =>
      if ieeeEqPt p ((p :: rest).getLast (List.cons_ne_nil p rest))
      then p :: rest else (p :: rest) ++ [p]

/-- The loop output of buffer_ring before closing: the offset of each
vertex of the normalized ring, in loop order. -/
noncomputable def bufferedCore (R : List (Pt ℝ)) (buffer : ℝ) : List (Pt ℝ) :=
  (triples (normRing R)).map (fun t => offsetVertex (normRing R) buffer t.1 t.2.1 t.2.2)

/-- Translation of esri.buffer_ring.  The source mutates its list
argument in place (popping a duplicate closing point) and returns a new
list; this embedding returns the pair (returned ring, final state of the
caller's ring argument). -/
noncomputable def buffer_ring (R : List (Pt ℝ)) (buffer : ℝ) : List (Pt ℝ) × List (Pt ℝ) :=
  (closeRing (bufferedCore R buffer), normRing R)

/-- The offset buffer_ring computes for input vertex j of the normalized
ring, whose predecessor and successor are the cyclically adjacent
vertices. -/
noncomputable def offsetFor (r : List (Pt ℝ)) (d : ℝ) (j : ℕ) : Pt ℝ :=
  offsetVertex r d (r.getD ((j + r.length - 1) % r.length) pt0) (r.getD j pt0)
    (r.getD ((j + 1) % r.length) pt0)

/-- The unit square test ring. -/
def usq : List (Pt ℝ) := [fpt 0 0, fpt 0 1, fpt 1 1, fpt 1 0]

/-- The unit square with an explicit closing duplicate. -/
def usqClosed : List (Pt ℝ) := [fpt 0 0, fpt 0 1, fpt 1 1, fpt 1 0, fpt 0 0]

/-- An L-shaped (nonconvex, simple, axis-aligned) test ring with six
distinct vertices, not passing through the ray-cast origin. -/
def LRing : List (Pt ℝ) :=
  [fpt 0 0, fpt 0 2, fpt 2 2, fpt 2 1, fpt 1 1, fpt 1 0]

/-- A point is finite and approximates a target to within 1/10 in each
coordinate. -/
def approxPt (p : Pt ℝ) (tx ty : ℝ) : Prop :=
  ∃ x y, p = fpt x y ∧ |x - tx| ≤ 1/10 ∧ |y - ty| ≤ 1/10

/-- Coordinates of a thin, strictly convex, clockwise hexagon whose left
edge runs from (0,0) up to (0,6).  The edges adjacent to that edge have
3-4-5 slopes, so the buffer offsets of its endpoints are rational and,
with distance 5, coincide exactly at (9,3): the single-quadrant normal
of the vertical edge points east across the thin polygon (landing
outside, so no flip fires), and the two oblique normals are east-up and
east-down by the same 3-4-5 angle. -/
def hexCoords : List (ℝ × ℝ) := [(3, 10), (4, 5), (4, 1), (3, -4), (0, 0), (0, 6)]

/-- The hexagon as a ring of idealized float points. -/
def hexRing : List (Pt ℝ) := hexCoords.map (fun q => fpt q.1 q.2)

/-- Cross product of consecutive edge vectors at position i of a closed
coordinate ring; a negative value at every index means the ring turns
clockwise at every vertex (strict convexity). -/
def crossAt (l : List (ℝ × ℝ)) (i : ℕ) : ℝ :=
  let p := l.getD i (0, 0)
  let q := l.getD ((i + 1) % l.length) (0, 0)
  let r := l.getD ((i + 2) % l.length) (0, 0)
  (q.1 - p.1) * (r.2 - q.2) - (q.2 - p.2) * (r.1 - q.1)

theorem eq_of_ieeeEq {a b : F K} (h : ieeeEq a b = true) : a = b := by
  cases a <;> cases b <;> simp_all [ieeeEq]

theorem eq_of_ieeeEqPt {p q : Pt K} (h : ieeeEqPt p q = true) : p = q := by
  rcases p with ⟨px, py⟩; rcases q with ⟨qx, qy⟩
  simp only [ieeeEqPt, Bool.and_eq_true] at h
  exact Prod.ext (eq_of_ieeeEq h.1) (eq_of_ieeeEq h.2)

theorem foldl_isOutsideStep (point : Pt K) (l : List (Pt K × Pt K)) (a b : ℕ) :
    l.foldl (isOutsideStep point) (a, b) =
      (a + l.countP (edgeHit point), b + l.countP (edgeVertexHit point)) := by
  induction l generalizing a b with
  | nil => simp
  | cons e t ih =>
      rw [List.foldl_cons, List.countP_cons, List.countP_cons]
      rcases he : intersection rayOrigin point e.1 e.2 with _ | i
      · simp only [isOutsideStep, he, edgeHit, edgeVertexHit, ih]
        simp
      · rcases hd : in_domain i e.1 e.2 rayOrigin point with _ | _
        · simp only [isOutsideStep, he, hd, edgeHit, edgeVertexHit, ih]
          simp
        · rcases hv : (ieeeEqPt i e.1 || ieeeEqPt i e.2) with _ | _ <;>
            · simp only [isOutsideStep, he, hd, hv, edgeHit, edgeVertexHit, ih]
              simp
              omega

theorem pyMod2Zero_iff [FloorRing K] (x : K) :
    pyMod2Zero x = true ↔ ∃ k : ℤ, x = 2 * k := by
  constructor
  · intro h
    exact ⟨⌊x / 2⌋, by simpa [pyMod2Zero] using h⟩
  · rintro ⟨k, rfl⟩
    have h2 : (2 : K) ≠ 0 := two_ne_zero
    simp [pyMod2Zero, mul_div_cancel_left₀ (k : K) h2, Int.floor_intCast]

theorem is_outside_eq_counts [FloorRing K] (ring : List (Pt K)) (point : Pt K) :
    is_outside ring point =
      pyMod2Zero (((edgePairs ring).countP (edgeHit point) : K) -
        ((edgePairs ring).countP (edgeVertexHit point) : K) / 2) := by
  simp only [is_outside]
  rw [foldl_isOutsideStep]
  norm_num

end PlanReview

namespace PlanReview

open F

variable {K : Type} [LinearOrderedField K]

-- ## Claim theorems: exact layer

/-- Claim C2: is_outside returns true exactly when N - V/2 is even,
where N counts the ring edges whose line intersection with the
origin-to-point segment exists and passes the segment domain test, and V
counts those intersections landing exactly on an edge endpoint. -/
theorem C2_is_outside_parity [FloorRing K] (ring : List (Pt K)) (point : Pt K) :
    is_outside ring point = true ↔
      ∃ k : ℤ, ((edgePairs ring).countP (edgeHit point) : K) -
        ((edgePairs ring).countP (edgeVertexHit point) : K) / 2 = 2 * k := by
  rw [is_outside_eq_counts, pyMod2Zero_iff]

/-- Claim C5 (counterexample): two vertical lines traversed in opposite
directions get slopes +inf and -inf, which are not IEEE-equal, so
intersection returns a point (with NaN ordinate) instead of None. -/
theorem C5_counterexample :
    (point_slope (K := ℝ) (fpt 0 0) (fpt 0 1)).1 = pinf ∧
    (point_slope (K := ℝ) (fpt 1 1) (fpt 1 0)).1 = ninf ∧
    intersection (K := ℝ) (fpt 0 0) (fpt 0 1) (fpt 1 1) (fpt 1 0)
      = some (val 0, nan) := by
  norm_num [intersection, point_slope, fpt, fadd, fsub, fneg, fmul, fdiv,
    ieeeEq, isNan]

/-- Claim C5 (amended): intersection returns None exactly when the two
computed slopes compare IEEE-equal — equal finite slopes, or two
vertical lines whose traversal directions give infinite slopes of the
same sign. -/
theorem C5_parallel_none (a b c d : Pt K) :
    intersection a b c d = none ↔
      ieeeEq (point_slope a b).1 (point_slope c d).1 = true := by
  rcases h : ieeeEq (point_slope a b).1 (point_slope c d).1 with _ | _
  · simp only [intersection, h, Bool.false_eq_true, if_false]
    rcases h1 : isNan (point_slope a b).2 with _ | _ <;>
      rcases h2 : isNan (point_slope c d).2 with _ | _ <;>
      simp [h1, h2]
  · simp [intersection, h]

/-- Claim C7: concrete point-in-ring cases.  For the ring
[(1,1),(1,3),(3,3),(3,1)], (-2,1) is outside and (1.5,1.5) is inside;
for the unit square, (0.5,0.75) is inside and (-0.5,1.0) is outside. -/
theorem C7_concrete_cases :
    is_outside (K := ℝ) [fpt 1 1, fpt 1 3, fpt 3 3, fpt 3 1] (fpt (-2) 1) = true ∧
    is_outside (K := ℝ) [fpt 1 1, fpt 1 3, fpt 3 3, fpt 3 1] (fpt (3/2) (3/2)) = false ∧
    is_outside (K := ℝ) [fpt 0 0, fpt 0 1, fpt 1 1, fpt 1 0] (fpt (1/2) (3/4)) = false ∧
    is_outside (K := ℝ) [fpt 0 0, fpt 0 1, fpt 1 1, fpt 1 0] (fpt (-(1/2)) 1) = true := by
  refine ⟨?_, ?_, ?_, ?_⟩ <;>
    norm_num [is_outside, edgePairs, rot1, isOutsideStep, intersection, point_slope,
      in_domain, in_domain_coord, ieeeEqPt, ieeeEq, isNan, fpt, rayOrigin, pyMod2Zero,
      fadd, fsub, fneg, fmul, fdiv, flt, fgt, pymax, pymin, List.getLast, List.zip]

-- helper facts about pymax, pymin, flt, fgt on finite values

theorem pymax_val_val (a b : K) : pymax (val a) (val b) = val (max a b) := by
  rcases le_or_lt b a with h | h
  · simp [pymax, fgt, flt, not_lt.2 h, max_eq_left h]
  · simp [pymax, fgt, flt, h, max_eq_right h.le]

theorem pymin_val_val (a b : K) : pymin (val a) (val b) = val (min a b) := by
  rcases le_or_lt a b with h | h
  · simp [pymin, flt, not_lt.2 h, min_eq_left h]
  · simp [pymin, flt, h, min_eq_right h.le]

/-- Claim C8: for finite inputs, in_domain holds exactly when each
coordinate of the candidate point lies in the closed interval spanned by
the corresponding coordinates of p1,p2 and in the one spanned by o1,o2. -/
theorem C8_in_domain_iff (ix iy px1 py1 px2 py2 ox1 oy1 ox2 oy2 : K) :
    in_domain (fpt ix iy) (fpt px1 py1) (fpt px2 py2) (fpt ox1 oy1) (fpt ox2 oy2)
        = true ↔
      ((min px1 px2 ≤ ix ∧ ix ≤ max px1 px2) ∧
       (min ox1 ox2 ≤ ix ∧ ix ≤ max ox1 ox2) ∧
       (min py1 py2 ≤ iy ∧ iy ≤ max py1 py2) ∧
       (min oy1 oy2 ≤ iy ∧ iy ≤ max oy1 oy2)) := by
  simp only [in_domain, in_domain_coord, fpt, pymax_val_val, pymin_val_val,
    fgt, flt, Bool.and_eq_true, Bool.not_eq_true', Bool.or_eq_false_iff,
    decide_eq_false_iff_not, not_lt]
  tauto

-- ## Envelope and centroid characterization (C9)

theorem foldl_pymin_vals (l : List K) (x : K) :
    (l.map val).foldl pymin (val x) = val (l.foldl min x) := by
  induction l generalizing x with
  | nil => rfl
  | cons a t ih => simp [pymin_val_val, ih]

theorem foldl_pymax_vals (l : List K) (x : K) :
    (l.map val).foldl pymax (val x) = val (l.foldl max x) := by
  induction l generalizing x with
  | nil => rfl
  | cons a t ih => simp [pymax_val_val, ih]

theorem foldl_min_le (l : List K) (x : K) :
    l.foldl min x ≤ x ∧ ∀ a ∈ l, l.foldl min x ≤ a := by
  induction l generalizing x with
  | nil => simp
  | cons a t ih =>
      refine ⟨le_trans (ih (min x a)).1 (min_le_left x a), ?_⟩
      intro b hb
      rcases List.mem_cons.1 hb with rfl | hb
      · exact le_trans (ih (min x b)).1 (min_le_right x b)
      · exact (ih (min x a)).2 b hb

theorem foldl_min_mem (l : List K) (x : K) :
    l.foldl min x = x ∨ l.foldl min x ∈ l := by
  induction l generalizing x with
  | nil => simp
  | cons a t ih =>
      rcases ih (min x a) with h | h
      · rcases min_choice x a with hc | hc
        · exact Or.inl (by rw [List.foldl_cons, h, hc])
        · exact Or.inr (by rw [List.foldl_cons, h, hc]; exact List.mem_cons_self a t)
      · exact Or.inr (List.mem_cons_of_mem a h)

theorem le_foldl_max (l : List K) (x : K) :
    x ≤ l.foldl max x ∧ ∀ a ∈ l, a ≤ l.foldl max x := by
  induction l generalizing x with
  | nil => simp
  | cons a t ih =>
      refine ⟨le_trans (le_max_left x a) (ih (max x a)).1, ?_⟩
      intro b hb
      rcases List.mem_cons.1 hb with rfl | hb
      · exact le_trans (le_max_right x b) (ih (max x b)).1
      · exact (ih (max x a)).2 b hb

theorem foldl_max_mem (l : List K) (x : K) :
    l.foldl max x = x ∨ l.foldl max x ∈ l := by
  induction l generalizing x with
  | nil => simp
  | cons a t ih =>
      rcases ih (max x a) with h | h
      · rcases max_choice x a with hc | hc
        · exact Or.inl (by rw [List.foldl_cons, h, hc])
        · exact Or.inr (by rw [List.foldl_cons, h, hc]; exact List.mem_cons_self a t)
      · exact Or.inr (List.mem_cons_of_mem a h)

theorem foldl_fadd_fst_vals (l : List (K × K)) (x : K) :
    (l.map (fun q => fpt q.1 q.2)).foldl (fun s p => fadd s p.1) (val x) =
      val (x + (l.map Prod.fst).sum) := by
  induction l generalizing x with
  | nil => simp
  | cons a t ih =>
      simp only [List.map_cons, List.foldl_cons]
      rw [show fadd (val x) (fpt a.1 a.2).1 = val (x + a.1) from rfl, ih,
        List.sum_cons, add_assoc]

theorem foldl_fadd_snd_vals (l : List (K × K)) (x : K) :
    (l.map (fun q => fpt q.1 q.2)).foldl (fun s p => fadd s p.2) (val x) =
      val (x + (l.map Prod.snd).sum) := by
  induction l generalizing x with
  | nil => simp
  | cons a t ih =>
      simp only [List.map_cons, List.foldl_cons]
      rw [show fadd (val x) (fpt a.1 a.2).2 = val (x + a.2) from rfl, ih,
        List.sum_cons, add_assoc]

/-- Claim C9: for every non-empty ring, make_envelope returns the
componentwise minima and maxima over all vertices (each bound is
attained at some vertex and bounds every vertex), and centroid returns
the arithmetic means of the x and y coordinates. -/
theorem C9_envelope_centroid (l : List (K × K)) (hl : l ≠ []) :
    (∃ m, (make_envelope (l.map (fun q => fpt q.1 q.2))).xmin = val m ∧
      m ∈ l.map Prod.fst ∧ ∀ p ∈ l, m ≤ p.1) ∧
    (∃ m, (make_envelope (l.map (fun q => fpt q.1 q.2))).ymin = val m ∧
      m ∈ l.map Prod.snd ∧ ∀ p ∈ l, m ≤ p.2) ∧
    (∃ m, (make_envelope (l.map (fun q => fpt q.1 q.2))).xmax = val m ∧
      m ∈ l.map Prod.fst ∧ ∀ p ∈ l, p.1 ≤ m) ∧
    (∃ m, (make_envelope (l.map (fun q => fpt q.1 q.2))).ymax = val m ∧
      m ∈ l.map Prod.snd ∧ ∀ p ∈ l, p.2 ≤ m) ∧
    centroid (l.map (fun q => fpt q.1 q.2)) =
      fpt ((l.map Prod.fst).sum / l.length) ((l.map Prod.snd).sum / l.length) := by
  rcases l with _ | ⟨q, t⟩
  · exact absurd rfl hl
  have hmapfst : (t.map (fun q => fpt q.1 q.2)).map Prod.fst
      = (t.map Prod.fst).map val := by
    simp [List.map_map, Function.comp, fpt]
  have hmapsnd : (t.map (fun q => fpt q.1 q.2)).map Prod.snd
      = (t.map Prod.snd).map val := by
    simp [List.map_map, Function.comp, fpt]
  have henv : make_envelope ((q :: t).map (fun q => fpt q.1 q.2)) =
      ⟨val ((t.map Prod.fst).foldl min q.1), val ((t.map Prod.snd).foldl min q.2),
       val ((t.map Prod.fst).foldl max q.1), val ((t.map Prod.snd).foldl max q.2)⟩ := by
    simp only [List.map_cons, make_envelope, hmapfst, hmapsnd]
    rw [show (fpt q.1 q.2).1 = val q.1 from rfl, show (fpt q.1 q.2).2 = val q.2 from rfl,
      foldl_pymin_vals, foldl_pymin_vals, foldl_pymax_vals, foldl_pymax_vals]
  refine ⟨?_, ?_, ?_, ?_, ?_⟩
  · refine ⟨(t.map Prod.fst).foldl min q.1, by rw [henv], ?_, ?_⟩
    · rcases foldl_min_mem (t.map Prod.fst) q.1 with h | h
      · rw [h]; exact List.mem_map_of_mem Prod.fst (List.mem_cons_self q t)
      · rw [List.map_cons]; exact List.mem_cons_of_mem _ h
    · intro p hp
      rcases List.mem_cons.1 hp with rfl | hp
      · exact (foldl_min_le (t.map Prod.fst) p.1).1
      · exact (foldl_min_le (t.map Prod.fst) q.1).2 p.1 (List.mem_map_of_mem _ hp)
  · refine ⟨(t.map Prod.snd).foldl min q.2, by rw [henv], ?_, ?_⟩
    · rcases foldl_min_mem (t.map Prod.snd) q.2 with h | h
      · rw [h]; exact List.mem_map_of_mem Prod.snd (List.mem_cons_self q t)
      · rw [List.map_cons]; exact List.mem_cons_of_mem _ h
    · intro p hp
      rcases List.mem_cons.1 hp with rfl | hp
      · exact (foldl_min_le (t.map Prod.snd) p.2).1
      · exact (foldl_min_le (t.map Prod.snd) q.2).2 p.2 (List.mem_map_of_mem _ hp)
  · refine ⟨(t.map Prod.fst).foldl max q.1, by rw [henv], ?_, ?_⟩
    · rcases foldl_max_mem (t.map Prod.fst) q.1 with h | h
      · rw [h]; exact List.mem_map_of_mem Prod.fst (List.mem_cons_self q t)
      · rw [List.map_cons]; exact List.mem_cons_of_mem _ h
    · intro p hp
      rcases List.mem_cons.1 hp with rfl | hp
      · exact (le_foldl_max (t.map Prod.fst) p.1).1
      · exact (le_foldl_max (t.map Prod.fst) q.1).2 p.1 (List.mem_map_of_mem _ hp)
  · refine ⟨(t.map Prod.snd).foldl max q.2, by rw [henv], ?_, ?_⟩
    · rcases foldl_max_mem (t.map Prod.snd) q.2 with h | h
      · rw [h]; exact List.mem_map_of_mem Prod.snd (List.mem_cons_self q t)
      · rw [List.map_cons]; exact List.mem_cons_of_mem _ h
    · intro p hp
      rcases List.mem_cons.1 hp with rfl | hp
      · exact (le_foldl_max (t.map Prod.snd) p.2).1
      · exact (le_foldl_max (t.map Prod.snd) q.2).2 p.2 (List.mem_map_of_mem _ hp)
  · have hlen : ((q :: t).map (fun q => fpt q.1 q.2)).length = (q :: t).length := by
      simp
    have hne : ¬((t.length : K) + 1 = 0) := Nat.cast_add_one_ne_zero t.length
    simp only [centroid, hlen, foldl_fadd_fst_vals, foldl_fadd_snd_vals, zero_add]
    rw [fdiv, fdiv]
    simp [hne, fpt, List.length_cons]

/-- Witness for C9 at the concrete two-vertex list [(1,2),(3,4)] over ℚ. -/
theorem C9_witness :
    (∃ m, (make_envelope ([((1 : ℚ), (2 : ℚ)), (3, 4)].map
        (fun q => fpt q.1 q.2))).xmin = val m ∧
      m ∈ [((1 : ℚ), (2 : ℚ)), (3, 4)].map Prod.fst ∧
      ∀ p ∈ [((1 : ℚ), (2 : ℚ)), (3, 4)], m ≤ p.1) ∧
    (∃ m, (make_envelope ([((1 : ℚ), (2 : ℚ)), (3, 4)].map
        (fun q => fpt q.1 q.2))).ymin = val m ∧
      m ∈ [((1 : ℚ), (2 : ℚ)), (3, 4)].map Prod.snd ∧
      ∀ p ∈ [((1 : ℚ), (2 : ℚ)), (3, 4)], m ≤ p.2) ∧
    (∃ m, (make_envelope ([((1 : ℚ), (2 : ℚ)), (3, 4)].map
        (fun q => fpt q.1 q.2))).xmax = val m ∧
      m ∈ [((1 : ℚ), (2 : ℚ)), (3, 4)].map Prod.fst ∧
      ∀ p ∈ [((1 : ℚ), (2 : ℚ)), (3, 4)], p.1 ≤ m) ∧
    (∃ m, (make_envelope ([((1 : ℚ), (2 : ℚ)), (3, 4)].map
        (fun q => fpt q.1 q.2))).ymax = val m ∧
      m ∈ [((1 : ℚ), (2 : ℚ)), (3, 4)].map Prod.snd ∧
      ∀ p ∈ [((1 : ℚ), (2 : ℚ)), (3, 4)], p.2 ≤ m) ∧
    centroid ([((1 : ℚ), (2 : ℚ)), (3, 4)].map (fun q => fpt q.1 q.2)) =
      fpt (([((1 : ℚ), (2 : ℚ)), (3, 4)].map Prod.fst).sum /
          ([((1 : ℚ), (2 : ℚ)), (3, 4)].length))
        (([((1 : ℚ), (2 : ℚ)), (3, 4)].map Prod.snd).sum /
          ([((1 : ℚ), (2 : ℚ)), (3, 4)].length)) :=
  C9_envelope_centroid [((1 : ℚ), (2 : ℚ)), (3, 4)] (by simp)

-- ## Structural lemmas for buffer_ring

theorem rot1_length {α : Type} (l : List α) : (rot1 l).length = l.length := by
  rcases l with _ | ⟨x, xs⟩ <;> simp [rot1]

theorem getLast_eq_getD {α : Type} (x : α) (xs : List α) (d : α) :
    (x :: xs).getLast (List.cons_ne_nil x xs) = (x :: xs).getD xs.length d := by
  induction xs generalizing x with
  | nil => rfl
  | cons y ys ih =>
      rw [List.getLast_cons (List.cons_ne_nil y ys)]
      simp only [List.length_cons, List.getD_cons_succ]
      exact ih y

theorem dropLast_getD {α : Type} (l : List α) (d : α) (j : ℕ) (hj : j < l.length - 1) :
    l.dropLast.getD j d = l.getD j d := by
  rw [List.getD_eq_getElem _ _ (by rw [List.length_dropLast]; exact hj),
    List.getD_eq_getElem _ _ (by omega)]
  exact List.getElem_dropLast l j _

theorem rot1_getD {α : Type} (l : List α) (d : α) (i : ℕ) (hi : i < l.length) :
    (rot1 l).getD i d = l.getD ((i + l.length - 1) % l.length) d := by
  rcases l with _ | ⟨x, xs⟩
  · simp at hi
  · rcases i with _ | j
    · have h1 : (0 + (x :: xs).length - 1) % (x :: xs).length = xs.length := by
        have h : 0 + (x :: xs).length - 1 = xs.length := by simp
        rw [h, Nat.mod_eq_of_lt (by simp)]
      rw [h1, rot1, List.getD_cons_zero, getLast_eq_getD x xs d]
    · have hjlt : j < (x :: xs).length := by
        simp only [List.length_cons] at hi ⊢; omega
      have h1 : (j + 1 + (x :: xs).length - 1) % (x :: xs).length = j := by
        have h : j + 1 + (x :: xs).length - 1 = j + (x :: xs).length := by omega
        rw [h, Nat.add_mod_right, Nat.mod_eq_of_lt hjlt]
      rw [h1, rot1, List.getD_cons_succ]
      exact dropLast_getD (x :: xs) d j (by simp only [List.length_cons] at hi ⊢; omega)

theorem zip_getD {α β : Type} (l : List α) (m : List β) (d1 : α) (d2 : β) (i : ℕ)
    (h1 : i < l.length) (h2 : i < m.length) :
    (l.zip m).getD i (d1, d2) = (l.getD i d1, m.getD i d2) := by
  induction l generalizing m i with
  | nil => simp at h1
  | cons a t ih =>
      rcases m with _ | ⟨b, s⟩
      · simp at h2
      · rcases i with _ | j
        · simp [List.zip_cons_cons]
        · simp only [List.zip_cons_cons, List.getD_cons_succ]
          exact ih s j (by simpa using h1) (by simpa using h2)

theorem map_getD_lt {α β : Type} (l : List α) (f : α → β) (d : β) (e : α) (i : ℕ)
    (hi : i < l.length) :
    (l.map f).getD i d = f (l.getD i e) := by
  induction l generalizing i with
  | nil => simp at hi
  | cons a t ih =>
      rcases i with _ | j
      · simp
      · simp only [List.map_cons, List.getD_cons_succ]
        exact ih j (by simpa using hi)

theorem triples_getD (r : List (Pt K)) (i : ℕ) (hi : i < r.length) :
    (triples r).getD i (pt0, pt0, pt0) =
      ((rot1 (rot1 r)).getD i pt0, (rot1 r).getD i pt0, r.getD i pt0) := by
  have h1 : (rot1 r).length = r.length := rot1_length r
  have h2 : (rot1 (rot1 r)).length = r.length := by rw [rot1_length, h1]
  have hz : ((rot1 r).zip r).length = r.length := by
    rw [List.length_zip, h1, Nat.min_self]
  rw [triples, zip_getD _ _ _ _ i (h2 ▸ hi) (hz ▸ hi), zip_getD _ _ _ _ i (h1 ▸ hi) hi]

theorem triples_length (r : List (Pt K)) : (triples r).length = r.length := by
  simp [triples, List.length_zip, rot1_length]

theorem bufferedCore_length (R : List (Pt ℝ)) (d : ℝ) :
    (bufferedCore R d).length = (normRing R).length := by
  rw [bufferedCore, List.length_map, triples_length]

theorem mod_pred_succ (n i : ℕ) (hi : i < n) : ((i + n - 1) % n + 1) % n = i := by
  rcases i with _ | j
  · have h1 : 0 + n - 1 = n - 1 := by omega
    rw [h1, Nat.mod_eq_of_lt (show n - 1 < n by omega),
      Nat.sub_add_cancel (show 1 ≤ n by omega), Nat.mod_self]
  · have h : j + 1 + n - 1 = j + n := by omega
    rw [h, Nat.add_mod_right, Nat.mod_eq_of_lt (show j < n by omega),
      Nat.mod_eq_of_lt hi]

theorem bufferedCore_getD (R : List (Pt ℝ)) (d : ℝ) (i : ℕ)
    (hi : i < (normRing R).length) :
    (bufferedCore R d).getD i pt0 =
      offsetFor (normRing R) d ((i + (normRing R).length - 1) % (normRing R).length) := by
  have h1 : (rot1 (normRing R)).length = (normRing R).length := rot1_length _
  have ht : (triples (normRing R)).length = (normRing R).length := triples_length _
  have hn : 0 < (normRing R).length := by omega
  rw [bufferedCore, map_getD_lt _ _ _ (pt0, pt0, pt0) i (by rw [ht]; exact hi),
    triples_getD _ i hi, offsetFor]
  rw [rot1_getD _ pt0 i hi, rot1_getD _ pt0 i (h1 ▸ hi), h1,
    rot1_getD _ pt0 _ (Nat.mod_lt _ hn), mod_pred_succ _ i hi]

theorem closeRing_getD_lt (l : List (Pt K)) (d : Pt K) (i : ℕ) (hi : i < l.length) :
    (closeRing l).getD i d = l.getD i d := by
  rcases l with _ | ⟨p, rest⟩
  · simp at hi
  · rw [closeRing]
    split
    · rfl
    · exact List.getD_append _ _ _ _ hi

theorem closeRing_eq_self (l : List (Pt K)) (hne : l ≠ [])
    (h : ieeeEqPt (l.getD 0 pt0) (l.getD (l.length - 1) pt0) = true) :
    closeRing l = l := by
  rcases l with _ | ⟨p, rest⟩
  · exact absurd rfl hne
  · have hlast : (p :: rest).getD ((p :: rest).length - 1) pt0 =
        (p :: rest).getLast (List.cons_ne_nil p rest) := by
      rw [show (p :: rest).length - 1 = rest.length by simp]
      exact (getLast_eq_getD p rest pt0).symm
    rw [hlast, show (p :: rest).getD 0 pt0 = p from rfl] at h
    rw [closeRing, if_pos h]

-- ## Claim theorems: buffer_ring structure (C4, C10, C3)

/-- Claim C4 (counterexample): buffer_ring mutates a closed input ring —
after the call the caller's list has lost its closing duplicate. -/
theorem C4_counterexample : (buffer_ring usqClosed (1/2)).2 ≠ usqClosed := by
  have h2 : (buffer_ring usqClosed (1/2)).2 = [fpt 0 0, fpt 0 1, fpt 1 1, fpt 1 0] := by
    show normRing usqClosed = _
    norm_num [normRing, usqClosed, ieeeEqPt, ieeeEq, fpt, List.getLast]
  rw [h2, usqClosed]
  intro h
  exact absurd (congrArg List.length h) (by simp)

/-- Claim C4 (amended): buffer_ring pops the closing duplicate off the
caller's ring argument exactly when the ring's first and last points
compare IEEE-equal (in which case the argument has genuinely changed);
otherwise the argument is left unchanged. -/
theorem C4_mutation_exact (R : List (Pt ℝ)) (d : ℝ) (hne : R ≠ []) :
    (ieeeEqPt (R.getD 0 pt0) (R.getD (R.length - 1) pt0) = false →
      (buffer_ring R d).2 = R) ∧
    (ieeeEqPt (R.getD 0 pt0) (R.getD (R.length - 1) pt0) = true →
      (buffer_ring R d).2 = R.dropLast ∧ (buffer_ring R d).2 ≠ R) := by
  rcases R with _ | ⟨p, rest⟩
  · exact absurd rfl hne
  have hhead : (p :: rest).getD 0 pt0 = p := rfl
  have hlast : (p :: rest).getD ((p :: rest).length - 1) pt0 =
      (p :: rest).getLast (List.cons_ne_nil p rest) := by
    rw [show (p :: rest).length - 1 = rest.length by simp]
    exact (getLast_eq_getD p rest pt0).symm
  constructor
  · intro hf
    rw [hhead, hlast] at hf
    show normRing (p :: rest) = p :: rest
    rw [normRing, if_neg (by rw [hf]; exact Bool.false_ne_true)]
  · intro htr
    rw [hhead, hlast] at htr
    have hnr : normRing (p :: rest) = (p :: rest).dropLast := by
      rw [normRing, if_pos htr]
    refine ⟨hnr, ?_⟩
    show normRing (p :: rest) ≠ p :: rest
    rw [hnr]
    intro h
    exact absurd (congrArg List.length h) (by simp)

/-- Witness for C4 (amended) at the closed unit square. -/
theorem C4_witness :
    usqClosed ≠ [] ∧
    ((ieeeEqPt (usqClosed.getD 0 pt0) (usqClosed.getD (usqClosed.length - 1) pt0) = false →
      (buffer_ring usqClosed (1/2)).2 = usqClosed) ∧
    (ieeeEqPt (usqClosed.getD 0 pt0) (usqClosed.getD (usqClosed.length - 1) pt0) = true →
      (buffer_ring usqClosed (1/2)).2 = usqClosed.dropLast ∧
      (buffer_ring usqClosed (1/2)).2 ≠ usqClosed)) :=
  ⟨by simp [usqClosed], C4_mutation_exact usqClosed (1/2) (by simp [usqClosed])⟩

theorem buffer_output_getD (R : List (Pt ℝ)) (d : ℝ) (i : ℕ)
    (hi : i < (normRing R).length) :
    (buffer_ring R d).1.getD i pt0 =
      offsetFor (normRing R) d ((i + (normRing R).length - 1) % (normRing R).length) := by
  have hcl : (bufferedCore R d).length = (normRing R).length := bufferedCore_length R d
  show (closeRing (bufferedCore R d)).getD i pt0 = _
  rw [closeRing_getD_lt _ _ i (by rw [hcl]; exact hi)]
  exact bufferedCore_getD R d i hi

/-- Claim C10: the i-th output vertex of buffer_ring (before the closing
duplicate is appended) is the offset computed for input vertex
(i-1) mod n of the normalized ring. -/
theorem C10_output_rotation (R : List (Pt ℝ)) (d : ℝ) (i : ℕ)
    (hi : i < (normRing R).length) :
    (buffer_ring R d).1.getD i pt0 =
      offsetFor (normRing R) d ((i + (normRing R).length - 1) % (normRing R).length) :=
  buffer_output_getD R d i hi

/-- Claim C3 (amended): with at least 3 normalized vertices, positive
distance, and the first and last computed offsets not exactly equal,
buffer_ring returns the n per-vertex offsets in cyclic input order
(rotated by one position) followed by a closing duplicate: length n+1,
first point equal to last point.  The distinctness proviso is forced by
the counterexample: when the two offsets coincide exactly the source
skips the closing append and returns only n points. -/
theorem C3_shape (R : List (Pt ℝ)) (d : ℝ) (hd : 0 < d)
    (h3 : 3 ≤ (normRing R).length)
    (hgen : ieeeEqPt ((bufferedCore R d).getD 0 pt0)
      ((bufferedCore R d).getD ((normRing R).length - 1) pt0) = false) :
    (buffer_ring R d).1.length = (normRing R).length + 1 ∧
    (buffer_ring R d).1.getD 0 pt0 =
      (buffer_ring R d).1.getD ((normRing R).length) pt0 ∧
    (∀ i, i < (normRing R).length →
      (buffer_ring R d).1.getD i pt0 =
        offsetFor (normRing R) d ((i + (normRing R).length - 1) % (normRing R).length)) := by
  have hcl : (bufferedCore R d).length = (normRing R).length := bufferedCore_length R d
  rcases hc : bufferedCore R d with _ | ⟨p, rest⟩
  · rw [hc] at hcl
    simp only [List.length_nil] at hcl
    omega
  rw [hc] at hcl
  have hrest : rest.length + 1 = (normRing R).length := by simpa using hcl
  have hgetD0 : (p :: rest).getD 0 pt0 = p := rfl
  have hgetDlast : (p :: rest).getD ((normRing R).length - 1) pt0 =
      (p :: rest).getLast (List.cons_ne_nil p rest) := by
    rw [show (normRing R).length - 1 = rest.length by omega]
    exact (getLast_eq_getD p rest pt0).symm
  rw [hc, hgetD0, hgetDlast] at hgen
  have hclose : closeRing (p :: rest) = (p :: rest) ++ [p] := by
    rw [closeRing, if_neg (by rw [hgen]; exact Bool.false_ne_true)]
  have houtput : (buffer_ring R d).1 = (p :: rest) ++ [p] := by
    show closeRing (bufferedCore R d) = _
    rw [hc, hclose]
  refine ⟨?_, ?_, ?_⟩
  · rw [houtput]
    simp only [List.length_append, List.length_cons, List.length_nil]
    omega
  · rw [houtput]
    have hlft : ((p :: rest) ++ [p]).getD 0 pt0 = p :=
      (List.getD_append _ _ _ _ (by simp)).trans rfl
    have hrgt : ((p :: rest) ++ [p]).getD ((normRing R).length) pt0 = p := by
      rw [List.getD_append_right _ _ _ _ (by simp; omega)]
      rw [show (normRing R).length - (p :: rest).length = 0 by simp; omega]
      rfl
    rw [hlft, hrgt]
  · intro i hilt
    exact buffer_output_getD R d i hilt

-- ## Concrete evaluation of buffer_ring on the unit square and L-ring

theorem isclose_val_self (x : ℝ) :
    isclose (val x) (val x) ((1:ℝ)/1000) (1/100000) = true := by
  simp only [isclose, decide_eq_true_eq, sub_self, abs_zero]
  positivity

theorem isclose_val_far (x y : ℝ) (h : 1/1000 + 1/100000 * |y| < |x - y|) :
    isclose (val x) (val y) ((1:ℝ)/1000) (1/100000) = false := by
  simp only [isclose, decide_eq_false_iff_not, not_le]
  exact h

theorem isclose_npi2_pi2 :
    isclose (val (-(Real.pi/2))) (val (Real.pi/2)) ((1:ℝ)/1000) (1/100000) = false := by
  apply isclose_val_far
  have h1 : 3.14 < Real.pi := by linarith [Real.pi_gt_d6]
  rw [abs_of_nonneg (by positivity : (0:ℝ) ≤ Real.pi/2),
    abs_of_nonpos (by linarith : -(Real.pi/2) - Real.pi/2 ≤ 0)]
  linarith

theorem isclose_pi2_npi2 :
    isclose (val (Real.pi/2)) (val (-(Real.pi/2))) ((1:ℝ)/1000) (1/100000) = false := by
  apply isclose_val_far
  have h1 : 3.14 < Real.pi := by linarith [Real.pi_gt_d6]
  rw [abs_of_nonpos (by linarith : -(Real.pi/2) ≤ 0),
    abs_of_nonneg (by linarith : (0:ℝ) ≤ Real.pi/2 - -(Real.pi/2))]
  linarith

theorem normRing_usq : normRing usq = usq := by
  norm_num [normRing, usq, ieeeEqPt, ieeeEq, fpt, List.getLast]

theorem normRing_LRing : normRing LRing = LRing := by
  norm_num [normRing, LRing, ieeeEqPt, ieeeEq, fpt, List.getLast]

theorem triples_usq : triples usq =
    [(fpt 1 1, fpt 1 0, fpt 0 0), (fpt 1 0, fpt 0 0, fpt 0 1),
     (fpt 0 0, fpt 0 1, fpt 1 1), (fpt 0 1, fpt 1 1, fpt 1 0)] := by
  simp [triples, rot1, usq, List.getLast, List.zip]

set_option maxHeartbeats 2000000 in
theorem usq_offset0 :
    offsetVertex usq (1/2) (fpt 1 1) (fpt 1 0) (fpt 0 0) = fpt (3/2) (-(1/2)) := by
  simp only [offsetVertex]
  norm_num [usq, norm_angle, angle, add_vec, arctanF, cosF, sinF, fpt, fadd, fsub, fneg,
    fmul, fdiv, in_domain, in_domain_coord, pymax, pymin, fgt, flt,
    is_outside, edgePairs, rot1, isOutsideStep, intersection, point_slope, ieeeEqPt,
    ieeeEq, isNan, rayOrigin, pyMod2Zero, List.getLast, List.zip,
    Real.arctan_zero, Real.cos_zero, Real.sin_zero, Real.cos_pi_div_two,
    Real.sin_pi_div_two, Real.cos_add, Real.sin_add, Real.cos_pi, Real.sin_pi,
    isclose_val_self, isclose_npi2_pi2, isclose_pi2_npi2]

set_option maxHeartbeats 2000000 in
theorem usq_offset1 :
    offsetVertex usq (1/2) (fpt 1 0) (fpt 0 0) (fpt 0 1) = fpt (-(1/2)) (-(1/2)) := by
  simp only [offsetVertex]
  norm_num [usq, norm_angle, angle, add_vec, arctanF, cosF, sinF, fpt, fadd, fsub, fneg,
    fmul, fdiv, in_domain, in_domain_coord, pymax, pymin, fgt, flt,
    is_outside, edgePairs, rot1, isOutsideStep, intersection, point_slope, ieeeEqPt,
    ieeeEq, isNan, rayOrigin, pyMod2Zero, List.getLast, List.zip,
    Real.arctan_zero, Real.cos_zero, Real.sin_zero, Real.cos_pi_div_two,
    Real.sin_pi_div_two, Real.cos_add, Real.sin_add, Real.cos_pi, Real.sin_pi,
    isclose_val_self, isclose_npi2_pi2, isclose_pi2_npi2]

set_option maxHeartbeats 2000000 in
theorem usq_offset2 :
    offsetVertex usq (1/2) (fpt 0 0) (fpt 0 1) (fpt 1 1) = fpt (-(1/2)) (3/2) := by
  simp only [offsetVertex]
  norm_num [usq, norm_angle, angle, add_vec, arctanF, cosF, sinF, fpt, fadd, fsub, fneg,
    fmul, fdiv, in_domain, in_domain_coord, pymax, pymin, fgt, flt,
    is_outside, edgePairs, rot1, isOutsideStep, intersection, point_slope, ieeeEqPt,
    ieeeEq, isNan, rayOrigin, pyMod2Zero, List.getLast, List.zip,
    Real.arctan_zero, Real.cos_zero, Real.sin_zero, Real.cos_pi_div_two,
    Real.sin_pi_div_two, Real.cos_add, Real.sin_add, Real.cos_pi, Real.sin_pi,
    isclose_val_self, isclose_npi2_pi2, isclose_pi2_npi2]

set_option maxHeartbeats 2000000 in
theorem usq_offset3 :
    offsetVertex usq (1/2) (fpt 0 1) (fpt 1 1) (fpt 1 0) = fpt (3/2) (3/2) := by
  simp only [offsetVertex]
  norm_num [usq, norm_angle, angle, add_vec, arctanF, cosF, sinF, fpt, fadd, fsub, fneg,
    fmul, fdiv, in_domain, in_domain_coord, pymax, pymin, fgt, flt,
    is_outside, edgePairs, rot1, isOutsideStep, intersection, point_slope, ieeeEqPt,
    ieeeEq, isNan, rayOrigin, pyMod2Zero, List.getLast, List.zip,
    Real.arctan_zero, Real.cos_zero, Real.sin_zero, Real.cos_pi_div_two,
    Real.sin_pi_div_two, Real.cos_add, Real.sin_add, Real.cos_pi, Real.sin_pi,
    isclose_val_self, isclose_npi2_pi2, isclose_pi2_npi2]

set_option maxHeartbeats 2000000 in
theorem LRing_offset5 :
    offsetVertex LRing (1/2) (fpt 2 1) (fpt 1 1) (fpt 1 0) = fpt (1/2) (1/2) := by
  simp only [offsetVertex]
  norm_num [LRing, norm_angle, angle, add_vec, arctanF, cosF, sinF, fpt, fadd, fsub, fneg,
    fmul, fdiv, in_domain, in_domain_coord, pymax, pymin, fgt, flt,
    is_outside, edgePairs, rot1, isOutsideStep, intersection, point_slope, ieeeEqPt,
    ieeeEq, isNan, rayOrigin, pyMod2Zero, List.getLast, List.zip,
    Real.arctan_zero, Real.cos_zero, Real.sin_zero, Real.cos_pi_div_two,
    Real.sin_pi_div_two, Real.cos_add, Real.sin_add, Real.cos_pi, Real.sin_pi,
    isclose_val_self, isclose_npi2_pi2, isclose_pi2_npi2]

set_option maxHeartbeats 1000000 in
theorem LRing_inside_point : is_outside LRing (fpt (1/2) (1/2)) = false := by
  norm_num [LRing, is_outside, edgePairs, rot1, isOutsideStep, intersection, point_slope,
    in_domain, in_domain_coord, ieeeEqPt, ieeeEq, isNan, fpt, rayOrigin, pyMod2Zero,
    fadd, fsub, fneg, fmul, fdiv, flt, fgt, pymax, pymin, List.getLast, List.zip]

theorem usq_core : bufferedCore usq (1/2) =
    [fpt (3/2) (-(1/2)), fpt (-(1/2)) (-(1/2)), fpt (-(1/2)) (3/2), fpt (3/2) (3/2)] := by
  rw [bufferedCore, normRing_usq, triples_usq]
  show [offsetVertex usq (1/2) (fpt 1 1) (fpt 1 0) (fpt 0 0),
        offsetVertex usq (1/2) (fpt 1 0) (fpt 0 0) (fpt 0 1),
        offsetVertex usq (1/2) (fpt 0 0) (fpt 0 1) (fpt 1 1),
        offsetVertex usq (1/2) (fpt 0 1) (fpt 1 1) (fpt 1 0)] = _
  rw [usq_offset0, usq_offset1, usq_offset2, usq_offset3]

-- ## Concrete evaluation of buffer_ring on the convex hexagon (C3)

theorem hex_convex : crossAt hexCoords 0 < 0 ∧ crossAt hexCoords 1 < 0 ∧
    crossAt hexCoords 2 < 0 ∧ crossAt hexCoords 3 < 0 ∧ crossAt hexCoords 4 < 0 ∧
    crossAt hexCoords 5 < 0 := by
  refine ⟨?_, ?_, ?_, ?_, ?_, ?_⟩ <;> norm_num [crossAt, hexCoords]

theorem sqrt_one_add_sq_34 : Real.sqrt (1 + (3/4 : ℝ)^2) = 5/4 := by
  rw [show (1 + (3/4 : ℝ)^2) = (5/4)^2 by norm_num, Real.sqrt_sq (by norm_num)]

theorem sqrt_one_add_sq_43 : Real.sqrt (1 + (4/3 : ℝ)^2) = 5/3 := by
  rw [show (1 + (4/3 : ℝ)^2) = (5/3)^2 by norm_num, Real.sqrt_sq (by norm_num)]

theorem cos_arctan_34 : Real.cos (Real.arctan (3/4)) = 4/5 := by
  rw [Real.cos_arctan, sqrt_one_add_sq_34]
  norm_num

theorem sin_arctan_34 : Real.sin (Real.arctan (3/4)) = 3/5 := by
  rw [Real.sin_arctan, sqrt_one_add_sq_34]
  norm_num

theorem arctan_43_pos : (0 : ℝ) < Real.arctan (4/3) := by
  have h := Real.arctan_strictMono (show (0:ℝ) < 4/3 by norm_num)
  rwa [Real.arctan_zero] at h

theorem arctan_34_pos : (0 : ℝ) < Real.arctan (3/4) := by
  have h := Real.arctan_strictMono (show (0:ℝ) < 3/4 by norm_num)
  rwa [Real.arctan_zero] at h

theorem arctan_43_gt : (4/5 : ℝ) < Real.arctan (4/3) := by
  have hs := Real.sin_lt arctan_43_pos
  rw [Real.sin_arctan, sqrt_one_add_sq_43] at hs
  linarith [hs]

theorem arctan_34_lt : Real.arctan (3/4 : ℝ) < Real.pi/4 := by
  have h := Real.arctan_strictMono (show (3/4 : ℝ) < 1 by norm_num)
  rwa [Real.arctan_one] at h

theorem isclose_zero_arctan43 :
    isclose (val 0) (val (Real.arctan (4/3))) ((1:ℝ)/1000) (1/100000) = false := by
  apply isclose_val_far
  have h1 := arctan_43_gt
  have h2 := Real.arctan_lt_pi_div_two (4/3 : ℝ)
  have h3 : Real.pi < 3.15 := by linarith [Real.pi_lt_315]
  rw [abs_of_nonneg (by linarith : (0:ℝ) ≤ Real.arctan (4/3)),
    abs_of_nonpos (by linarith : (0:ℝ) - Real.arctan (4/3) ≤ 0)]
  linarith

theorem isclose_zero_neg_arctan43 :
    isclose (val 0) (val (-Real.arctan (4/3))) ((1:ℝ)/1000) (1/100000) = false := by
  apply isclose_val_far
  have h1 := arctan_43_gt
  have h2 := Real.arctan_lt_pi_div_two (4/3 : ℝ)
  have h3 : Real.pi < 3.15 := by linarith [Real.pi_lt_315]
  rw [abs_of_nonpos (by linarith : -Real.arctan (4/3) ≤ 0),
    abs_of_nonneg (by linarith : (0:ℝ) ≤ 0 - -Real.arctan (4/3))]
  linarith

theorem isclose_arctan34_pi2 :
    isclose (val (Real.arctan (3/4))) (val (Real.pi/2)) ((1:ℝ)/1000) (1/100000) = false := by
  apply isclose_val_far
  have h1 := arctan_34_lt
  have h0 := arctan_34_pos
  have h2 : 3.141592 < Real.pi := Real.pi_gt_d6
  have h3 : Real.pi < 3.15 := by linarith [Real.pi_lt_315]
  rw [abs_of_nonneg (by linarith : (0:ℝ) ≤ Real.pi/2),
    abs_of_nonpos (by linarith : Real.arctan (3/4) - Real.pi/2 ≤ 0)]
  linarith

theorem isclose_neg_arctan34_neg_pi2 :
    isclose (val (-Real.arctan (3/4))) (val (-(Real.pi/2))) ((1:ℝ)/1000) (1/100000)
      = false := by
  apply isclose_val_far
  have h1 := arctan_34_lt
  have h0 := arctan_34_pos
  have h2 : 3.141592 < Real.pi := Real.pi_gt_d6
  have h3 : Real.pi < 3.15 := by linarith [Real.pi_lt_315]
  rw [abs_of_nonpos (by linarith : -(Real.pi/2) ≤ 0),
    abs_of_nonneg (by linarith : (0:ℝ) ≤ -Real.arctan (3/4) - -(Real.pi/2))]
  linarith

theorem normRing_hexRing : normRing hexRing = hexRing := by
  norm_num [normRing, hexRing, hexCoords, ieeeEqPt, ieeeEq, fpt, List.getLast]

set_option maxHeartbeats 1000000 in
theorem hex_outside_56 : is_outside hexRing (val 5, val 6) = true := by
  norm_num [hexRing, hexCoords, is_outside, edgePairs, rot1, isOutsideStep, intersection,
    point_slope, in_domain, in_domain_coord, ieeeEqPt, ieeeEq, isNan, fpt, rayOrigin,
    pyMod2Zero, fadd, fsub, fneg, fmul, fdiv, flt, fgt, pymax, pymin, List.getLast,
    List.zip]

set_option maxHeartbeats 1000000 in
theorem hex_outside_43 : is_outside hexRing (val 4, val 3) = true := by
  norm_num [hexRing, hexCoords, is_outside, edgePairs, rot1, isOutsideStep, intersection,
    point_slope, in_domain, in_domain_coord, ieeeEqPt, ieeeEq, isNan, fpt, rayOrigin,
    pyMod2Zero, fadd, fsub, fneg, fmul, fdiv, flt, fgt, pymax, pymin, List.getLast,
    List.zip]

set_option maxHeartbeats 1000000 in
theorem hex_outside_50 : is_outside hexRing (val 5, val 0) = true := by
  norm_num [hexRing, hexCoords, is_outside, edgePairs, rot1, isOutsideStep, intersection,
    point_slope, in_domain, in_domain_coord, ieeeEqPt, ieeeEq, isNan, fpt, rayOrigin,
    pyMod2Zero, fadd, fsub, fneg, fmul, fdiv, flt, fgt, pymax, pymin, List.getLast,
    List.zip]

set_option maxHeartbeats 2000000 in
theorem hex_offsetB : offsetVertex hexRing 5 (fpt 0 0) (fpt 0 6) (fpt 3 10) = fpt 9 3 := by
  simp only [offsetVertex]
  norm_num [norm_angle, angle, add_vec, arctanF, cosF, sinF, fpt, fadd, fsub, fneg,
    fmul, fdiv, in_domain, in_domain_coord, pymax, pymin, fgt, flt,
    Real.arctan_zero, Real.cos_zero, Real.sin_zero,
    cos_arctan_34, sin_arctan_34, hex_outside_56, hex_outside_43,
    isclose_zero_arctan43, isclose_neg_arctan34_neg_pi2]

set_option maxHeartbeats 2000000 in
theorem hex_offsetA : offsetVertex hexRing 5 (fpt 3 (-4)) (fpt 0 0) (fpt 0 6) = fpt 9 3 := by
  simp only [offsetVertex]
  norm_num [norm_angle, angle, add_vec, arctanF, cosF, sinF, fpt, fadd, fsub, fneg,
    fmul, fdiv, in_domain, in_domain_coord, pymax, pymin, fgt, flt,
    Real.arctan_zero, Real.cos_zero, Real.sin_zero,
    cos_arctan_34, sin_arctan_34, hex_outside_43, hex_outside_50,
    isclose_arctan34_pi2, isclose_zero_neg_arctan43]

theorem hex_core_getD0 : (bufferedCore hexRing 5).getD 0 pt0 = fpt 9 3 := by
  have hlen : (normRing hexRing).length = 6 := by rw [normRing_hexRing]; rfl
  rw [bufferedCore_getD hexRing 5 0 (by rw [hlen]; norm_num), hlen, normRing_hexRing,
    show (0 + 6 - 1) % 6 = 5 from by norm_num,
    show offsetFor hexRing 5 5 =
      offsetVertex hexRing 5 (fpt 0 0) (fpt 0 6) (fpt 3 10) from rfl,
    hex_offsetB]

theorem hex_core_getD5 : (bufferedCore hexRing 5).getD 5 pt0 = fpt 9 3 := by
  have hlen : (normRing hexRing).length = 6 := by rw [normRing_hexRing]; rfl
  rw [bufferedCore_getD hexRing 5 5 (by rw [hlen]; norm_num), hlen, normRing_hexRing,
    show (5 + 6 - 1) % 6 = 4 from by norm_num,
    show offsetFor hexRing 5 4 =
      offsetVertex hexRing 5 (fpt 3 (-4)) (fpt 0 0) (fpt 0 6) from rfl,
    hex_offsetA]

/-- Claim C3 (counterexample): on the strictly convex clockwise hexagon
with 3-4-5 slopes (all six consecutive-edge cross products negative) and
distance 5, the offsets of the last two input vertices both come out
exactly (9,3), so the first and last loop outputs compare equal, the
closing append is skipped, and buffer_ring returns 6 points instead of
the n+1 = 7 a count-preserving closed ring requires: the output ring,
whose first point equals its last, has only 5 proper vertices for a
6-vertex input. -/
theorem C3_counterexample :
    (crossAt hexCoords 0 < 0 ∧ crossAt hexCoords 1 < 0 ∧ crossAt hexCoords 2 < 0 ∧
     crossAt hexCoords 3 < 0 ∧ crossAt hexCoords 4 < 0 ∧ crossAt hexCoords 5 < 0) ∧
    (normRing hexRing).length = 6 ∧
    (buffer_ring hexRing 5).1.getD 0 pt0 = fpt 9 3 ∧
    (buffer_ring hexRing 5).1.getD 5 pt0 = fpt 9 3 ∧
    (buffer_ring hexRing 5).1.length = 6 ∧
    (buffer_ring hexRing 5).1.length ≠ (normRing hexRing).length + 1 := by
  have hlen : (normRing hexRing).length = 6 := by rw [normRing_hexRing]; rfl
  have hclen : (bufferedCore hexRing 5).length = 6 := by
    rw [bufferedCore_length, hlen]
  have hcne : bufferedCore hexRing 5 ≠ [] := by
    intro h
    rw [h] at hclen
    exact absurd hclen (by norm_num)
  have heq : ieeeEqPt ((bufferedCore hexRing 5).getD 0 pt0)
      ((bufferedCore hexRing 5).getD ((bufferedCore hexRing 5).length - 1) pt0) = true := by
    rw [hclen, show (6 : ℕ) - 1 = 5 from rfl, hex_core_getD0, hex_core_getD5]
    norm_num [ieeeEqPt, ieeeEq, fpt]
  have hout : (buffer_ring hexRing 5).1 = bufferedCore hexRing 5 := by
    show closeRing (bufferedCore hexRing 5) = _
    exact closeRing_eq_self _ hcne heq
  refine ⟨hex_convex, hlen, ?_, ?_, ?_, ?_⟩
  · rw [hout, hex_core_getD0]
  · rw [hout, hex_core_getD5]
  · rw [hout, hclen]
  · rw [hout, hclen, hlen]
    norm_num

/-- Claim C6: buffering the unit square by 0.5 yields output vertices
approximately (1.5,-0.5), (-0.5,-0.5), (-0.5,1.5), (1.5,1.5), each
coordinate within tolerance 0.1 (the exact idealized values coincide
with the targets). -/
theorem C6_unit_square :
    approxPt ((buffer_ring usq (1/2)).1.getD 0 pt0) (3/2) (-(1/2)) ∧
    approxPt ((buffer_ring usq (1/2)).1.getD 1 pt0) (-(1/2)) (-(1/2)) ∧
    approxPt ((buffer_ring usq (1/2)).1.getD 2 pt0) (-(1/2)) (3/2) ∧
    approxPt ((buffer_ring usq (1/2)).1.getD 3 pt0) (3/2) (3/2) := by
  have hg : ∀ i, i < 4 → (buffer_ring usq (1/2)).1.getD i pt0 =
      (bufferedCore usq (1/2)).getD i pt0 := by
    intro i hi
    show (closeRing (bufferedCore usq (1/2))).getD i pt0 = _
    exact closeRing_getD_lt _ _ i (by rw [usq_core]; simpa using hi)
  refine ⟨⟨3/2, -(1/2), ?_, by norm_num, by norm_num⟩,
         ⟨-(1/2), -(1/2), ?_, by norm_num, by norm_num⟩,
         ⟨-(1/2), 3/2, ?_, by norm_num, by norm_num⟩,
         ⟨3/2, 3/2, ?_, by norm_num, by norm_num⟩⟩
  · rw [hg 0 (by norm_num), usq_core]; rfl
  · rw [hg 1 (by norm_num), usq_core]; rfl
  · rw [hg 2 (by norm_num), usq_core]; rfl
  · rw [hg 3 (by norm_num), usq_core]; rfl

/-- Claim C1 (code evidence): for the valid L-shaped ring (six distinct
vertices, simple, not through the ray origin) and distance 0.5, the
sixth output vertex of buffer_ring is (0.5, 0.5), and is_outside
classifies it as not outside — the outward-correctness invariant of the
spec and of the function's own docstring fails on this input. -/
theorem C1_inward_vertex :
    (buffer_ring LRing (1/2)).1.getD 5 pt0 = fpt (1/2) (1/2) ∧
    is_outside LRing (fpt (1/2) (1/2)) = false := by
  constructor
  · have hlen : (normRing LRing).length = 6 := by rw [normRing_LRing]; rfl
    have h5 : (5 : ℕ) < (normRing LRing).length := by rw [hlen]; norm_num
    rw [buffer_output_getD LRing (1/2) 5 h5, hlen, normRing_LRing,
      show (5 + 6 - 1) % 6 = 4 from by norm_num,
      show offsetFor LRing (1/2) 4 =
        offsetVertex LRing (1/2) (fpt 2 1) (fpt 1 1) (fpt 1 0) from rfl,
      LRing_offset5]
  · exact LRing_inside_point

/-- Witness for C3 at the unit square with distance 1/2. -/
theorem C3_witness :
    (0 : ℝ) < 1/2 ∧ 3 ≤ (normRing usq).length ∧
    ieeeEqPt ((bufferedCore usq (1/2)).getD 0 pt0)
      ((bufferedCore usq (1/2)).getD ((normRing usq).length - 1) pt0) = false ∧
    ((buffer_ring usq (1/2)).1.length = (normRing usq).length + 1 ∧
     (buffer_ring usq (1/2)).1.getD 0 pt0 =
       (buffer_ring usq (1/2)).1.getD ((normRing usq).length) pt0 ∧
     (∀ i, i < (normRing usq).length →
       (buffer_ring usq (1/2)).1.getD i pt0 =
         offsetFor (normRing usq) (1/2)
           ((i + (normRing usq).length - 1) % (normRing usq).length))) := by
  have h3 : 3 ≤ (normRing usq).length := by rw [normRing_usq]; norm_num [usq]
  have hgen : ieeeEqPt ((bufferedCore usq (1/2)).getD 0 pt0)
      ((bufferedCore usq (1/2)).getD ((normRing usq).length - 1) pt0) = false := by
    rw [usq_core, normRing_usq, show usq.length - 1 = 3 from by norm_num [usq]]
    show ieeeEqPt (fpt (3/2) (-(1/2))) (fpt (3/2) (3/2)) = false
    norm_num [ieeeEqPt, ieeeEq, fpt]
  exact ⟨by norm_num, h3, hgen, C3_shape usq (1/2) (by norm_num) h3 hgen⟩

/-- Witness for C10 at the unit square, distance 1/2, index 0. -/
theorem C10_witness :
    (0 : ℕ) < (normRing usq).length ∧
    (buffer_ring usq (1/2)).1.getD 0 pt0 =
      offsetFor (normRing usq) (1/2)
        ((0 + (normRing usq).length - 1) % (normRing usq).length) :=
  ⟨by rw [normRing_usq]; norm_num [usq],
   C10_output_rotation usq (1/2) 0 (by rw [normRing_usq]; norm_num [usq])⟩

end PlanReview
